import Mathlib

/-!
# Verification of the OptiRoute logistics optimizer core

Shallow embedding of the core of `SampleAgentSelector.py`:

* `haversine_km` — great-circle distance (lines 10-16);
* `assign_orders_to_warehouses` — greedy capacitated assignment (lines 18-44);
* `build_distance_matrix` — integer distance matrix for the solver (lines 49-58);
* `solve_vrp` — orchestration of the external routing solver (lines 60-81).

Modelling conventions:

* Python floats are modelled as real numbers (`ℝ`); trigonometric functions are
  the exact real ones, so floating-point rounding is outside this model.
  `math.asin` is partial on ℝ (domain `[-1,1]`) while Lean's `Real.arcsin`
  totalises it by clamping; the lemmas below show the clamp is never reached
  in exact arithmetic, so this is faithful for real-valued reasoning.
* Python ints are modelled as `ℤ`, list indices as `ℕ`.
* Warehouse/order dicts are structures; the keys read with `.get(k, d)` in the
  source (`qty`, defaulting to 1) are `Option` fields read with `getD`.
  `inventory` and `unit_cost` are plain fields: every warehouse record built by
  the repository carries them, so the `.get` defaults are dead.
* A warehouse dict is a mutable Python object; inside one call the working list
  `whs` is threaded as explicit state, and a sorted candidate carries the
  *index* of its warehouse in `whs` in place of Python object identity.
* The uncaught Python `IndexError` raised by `distances[0]` on an empty
  candidate list is modelled as `Except.error .indexError`.  The spec's
  designed `InvalidInput` error kind does not occur anywhere in the code; the
  constructor `.invalidInput` exists only so that statements about it can be
  written.
-/

/-- Error outcomes of the assignment engine.  `indexError` models the uncaught
Python `IndexError` from `distances[0]` on an empty list; `invalidInput` is the
spec's designed error kind, which the code never produces. -/
inductive AssignError where
  | indexError
  | invalidInput
deriving DecidableEq

/-- A warehouse record (`{"id": .., "name": .., "lat": .., "lon": ..,
"inventory": .., "unit_cost": ..}`). -/
structure Warehouse where
  id : ℤ
  name : String
  lat : ℝ
  lon : ℝ
  inventory : ℤ
  unit_cost : ℝ

instance : Inhabited Warehouse := ⟨⟨0, "", 0, 0, 0, 0⟩⟩

/-- An order record (`{"id": .., "lat": .., "lon": .., "qty": ..}`); the `qty`
key may be absent, in which case the code reads it as `o.get("qty", 1)`. -/
structure Order where
  id : ℤ
  lat : ℝ
  lon : ℝ
  qty : Option ℤ

instance : Inhabited Order := ⟨⟨0, 0, 0, none⟩⟩

/-- The assignment record appended for each order (lines 37-43). -/
structure Assignment where
  order_id : ℤ
  warehouse_id : ℤ
  warehouse_name : String
  dist_km : ℝ
  transport_cost : ℝ
  item_cost : ℝ
  backorder : Bool
  total_cost : ℝ
  qty : ℤ
  lat : ℝ
  lon : ℝ

/-- Degrees to radians, `math.radians`. -/
noncomputable def radians (x : ℝ) : ℝ := x * Real.pi / 180

/-- The half-chord value `a` computed inside `haversine_km` (line 15). -/
noncomputable def hav_a (lat1 lon1 lat2 lon2 : ℝ) : ℝ :=
  let phi1 := radians lat1
  let phi2 := radians lat2
  let dphi := radians (lat2 - lat1)
  let dlambda := radians (lon2 - lon1)
  Real.sin (dphi / 2) ^ 2 +
    Real.cos phi1 * Real.cos phi2 * Real.sin (dlambda / 2) ^ 2

/-- Great-circle distance in km (lines 10-16), `2 * R * asin(sqrt(a))` with
`R = 6371.0`. -/
noncomputable def haversine_km (lat1 lon1 lat2 lon2 : ℝ) : ℝ :=
  2 * 6371.0 * Real.arcsin (Real.sqrt (hav_a lat1 lon1 lat2 lon2))

/-- Python `round(x, 2)`: scale to cents and round to the nearest integer. -/
noncomputable def round2 (x : ℝ) : ℝ := (round (x * 100) : ℤ) / 100

/-- Python `int(x)`: truncation toward zero. -/
noncomputable def truncInt (x : ℝ) : ℤ := if 0 ≤ x then ⌊x⌋ else -⌊-x⌋

/-- The warehouse at position `i` of the working list (Python object identity
is modelled by position in `whs`). -/
def wh_at (whs : List Warehouse) (i : ℕ) : Warehouse := whs.getD i default

/-- The list `[(haversine_km(o, w), w) for w in whs]` (line 23), with each
warehouse represented by its index in `whs`. -/
noncomputable def distList (whs : List Warehouse) (o : Order) : List (ℝ × ℕ) :=
  (List.range whs.length).map
    (fun i => (haversine_km o.lat o.lon (wh_at whs i).lat (wh_at whs i).lon, i))

/-- `distances.sort(key=lambda x: x[0])` (line 24): a stable sort by distance
alone. -/
noncomputable def sortedDistances (whs : List Warehouse) (o : Order) : List (ℝ × ℕ) :=
  (distList whs o).mergeSort (fun x y => decide (x.1 ≤ y.1))

/-- The assignment record built on lines 34-43 for order `o`, chosen warehouse
`w`, unrounded distance `d` and backorder flag `backorder`. -/
noncomputable def mkAssignment (o : Order) (w : Warehouse) (d : ℝ) (backorder : Bool)
    (tc bp : ℝ) : Assignment :=
  let qty := o.qty.getD 1
  let transport_cost := d * tc
  let item_cost := w.unit_cost * (qty : ℝ)
  let total_cost := transport_cost + item_cost + (if backorder then bp else 0.0)
  { order_id := o.id
    warehouse_id := w.id
    warehouse_name := w.name
    dist_km := round2 d
    transport_cost := round2 transport_cost
    item_cost := round2 item_cost
    backorder := backorder
    total_cost := round2 total_cost
    qty := qty
    lat := o.lat
    lon := o.lon }

/-- `w["inventory"] -= qty` (line 29) on the warehouse at position `i` of the
working list. -/
def decrement (whs : List Warehouse) (i : ℕ) (qty : ℤ) : List Warehouse :=
  whs.set i { wh_at whs i with inventory := (wh_at whs i).inventory - qty }

/-- One iteration of the loop body (lines 21-43): scan the sorted candidates
for the first warehouse with inventory `≥ qty` and decrement it; otherwise
fall back to `distances[0]` (nearest, backordered, no decrement), which raises
`IndexError` when there are no candidates. -/
noncomputable def processOrder (whs : List Warehouse) (o : Order) (tc bp : ℝ) :
    Except AssignError (Assignment × List Warehouse) :=
  match (sortedDistances whs o).find?
      (fun p => decide (o.qty.getD 1 ≤ (wh_at whs p.2).inventory)) with
  | some (d, i) =>
      .ok (mkAssignment o (wh_at whs i) d false tc bp, decrement whs i (o.qty.getD 1))
  | none =>
      match (sortedDistances whs o).head? with
      | some (d, i) => .ok (mkAssignment o (wh_at whs i) d true tc bp, whs)
      | none => .error .indexError

/-- The `for o in orders` loop (lines 21-43), threading the working inventory
list. -/
noncomputable def assignGo (whs : List Warehouse) (orders : List Order) (tc bp : ℝ) :
    Except AssignError (List Assignment) :=
  match orders with
  | [] => .ok []
  | o :: rest =>
      match processOrder whs o tc bp with
      | .ok (a, whs') =>
          match assignGo whs' rest tc bp with
          | .ok as => .ok (a :: as)
          | .error e => .error e
      | .error e => .error e

/-- `assign_orders_to_warehouses` (lines 18-44).  The `copy.deepcopy` on
line 19 makes the engine operate on a working copy: here the input list is
passed by value and threaded as state. -/
noncomputable def assign_orders_to_warehouses (warehouses : List Warehouse)
    (orders : List Order) (transport_cost_per_km backorder_penalty : ℝ) :
    Except AssignError (List Assignment) :=
  assignGo warehouses orders transport_cost_per_km backorder_penalty

/-- A geographic location (`{"lat": .., "lon": ..}`) as consumed by the matrix
builder. -/
structure Loc where
  lat : ℝ
  lon : ℝ

instance : Inhabited Loc := ⟨⟨0, 0⟩⟩

/-- The location at position `i` of a location list. -/
def loc_at (locs : List Loc) (i : ℕ) : Loc := locs.getD i default

/-- `build_distance_matrix` (lines 49-58): `locations = [depot] + customers`,
entry `[i][j] = int(haversine_km(...) * 1000)` for `i ≠ j` and `0` on the
diagonal. -/
noncomputable def build_distance_matrix (depot : Loc) (customers : List Loc) :
    List (List ℤ) :=
  let locations := depot :: customers
  let n := locations.length
  (List.range n).map (fun i =>
    (List.range n).map (fun j =>
      if i = j then 0
      else truncInt (haversine_km (loc_at locations i).lat (loc_at locations i).lon
        (loc_at locations j).lat (loc_at locations j).lon * 1000)))

/-- `solve_vrp` (lines 60-81).  The external OR-Tools call
`routing.SolveWithParameters(params)` is modelled by the parameter
`solverOutput`: `none` when the solver finds no feasible solution, and
`some f` when it does, where `f v` is the node sequence extracted for vehicle
`v` by the index walk of lines 75-79.  The code initialises `routes = []` and
fills it only under `if solution:`, so a failed solve returns the empty list. -/
def solve_vrp (distance_matrix : List (List ℤ)) (num_vehicles : ℕ)
    (solverOutput : Option (ℕ → List ℕ)) : List (List ℕ) :=
  match solverOutput with
  | none => []
  | some f => (List.range num_vehicles).map f

/-- A Python heap restricted to the mutable warehouse `inventory` cells:
`mem a` is the integer stored at address `a`, and `next` is the next fresh
address. -/
structure HeapState where
  mem : ℕ → ℤ
  next : ℕ

/-- A warehouse dict as the caller sees it: immutable fields plus the heap
address of its mutable `inventory` entry. -/
structure WhouseRef where
  id : ℤ
  name : String
  lat : ℝ
  lon : ℝ
  unit_cost : ℝ
  invAddr : ℕ

instance : Inhabited WhouseRef := ⟨⟨0, "", 0, 0, 0, 0⟩⟩

/-- Store `v` at address `a`. -/
def writeCell (s : HeapState) (a : ℕ) (v : ℤ) : HeapState :=
  { s with mem := fun x => if x = a then v else s.mem x }

/-- `copy.deepcopy(warehouses)` (line 19): allocate a fresh inventory cell per
warehouse, copying the current value; the copies' addresses are all fresh. -/
def deepcopyWh (s : HeapState) (ws : List WhouseRef) : List WhouseRef × HeapState :=
  match ws with
  | [] => ([], s)
  | w :: rest =>
      let w' := { w with invAddr := s.next }
      let s' : HeapState :=
        { mem := fun x => if x = s.next then s.mem w.invAddr else s.mem x
          next := s.next + 1 }
      let p := deepcopyWh s' rest
      (w' :: p.1, p.2)

/-- The warehouse value a ref denotes in heap state `s`. -/
def whView (s : HeapState) (r : WhouseRef) : Warehouse :=
  ⟨r.id, r.name, r.lat, r.lon, s.mem r.invAddr, r.unit_cost⟩

/-- The warehouse ref at position `i` of the working list. -/
def whref_at (whs : List WhouseRef) (i : ℕ) : WhouseRef := whs.getD i default

/-- Line 23 over warehouse refs (latitude/longitude are immutable fields). -/
noncomputable def distListH (whs : List WhouseRef) (o : Order) : List (ℝ × ℕ) :=
  (List.range whs.length).map
    (fun i => (haversine_km o.lat o.lon (whref_at whs i).lat (whref_at whs i).lon, i))

/-- Line 24 over warehouse refs. -/
noncomputable def sortedDistancesH (whs : List WhouseRef) (o : Order) : List (ℝ × ℕ) :=
  (distListH whs o).mergeSort (fun x y => decide (x.1 ≤ y.1))

/-- Lines 21-43 over the explicit heap: reads of `w["inventory"]` go through
`s.mem`, and the decrement on line 29 is a heap write to the chosen cell. -/
noncomputable def processOrderH (s : HeapState) (whs : List WhouseRef) (o : Order)
    (tc bp : ℝ) : Except AssignError Assignment × HeapState :=
  match (sortedDistancesH whs o).find?
      (fun p => decide (o.qty.getD 1 ≤ s.mem (whref_at whs p.2).invAddr)) with
  | some (d, i) =>
      let r := whref_at whs i
      (.ok (mkAssignment o (whView s r) d false tc bp),
        writeCell s r.invAddr (s.mem r.invAddr - o.qty.getD 1))
  | none =>
      match (sortedDistancesH whs o).head? with
      | some (d, i) => (.ok (mkAssignment o (whView s (whref_at whs i)) d true tc bp), s)
      | none => (.error .indexError, s)

/-- The order loop over the explicit heap; an error (the Python exception)
propagates, leaving the heap as it was at the raise point. -/
noncomputable def assignGoH (s : HeapState) (whs : List WhouseRef) (orders : List Order)
    (tc bp : ℝ) : Except AssignError (List Assignment) × HeapState :=
  match orders with
  | [] => (.ok [], s)
  | o :: rest =>
      match processOrderH s whs o tc bp with
      | (.ok a, s') =>
          match assignGoH s' whs rest tc bp with
          | (.ok as, s'') => (.ok (a :: as), s'')
          | (.error e, s'') => (.error e, s'')
      | (.error e, s') => (.error e, s')

/-- `assign_orders_to_warehouses` over the explicit heap: deepcopy the
caller's warehouse records, then run the loop on the copies. -/
noncomputable def assignH (s0 : HeapState) (warehouses : List WhouseRef)
    (orders : List Order) (tc bp : ℝ) :
    Except AssignError (List Assignment) × HeapState :=
  let p := deepcopyWh s0 warehouses
  assignGoH p.2 p.1 orders tc bp

/-- Spec-side order on distance-index pairs: ascending distance, ties broken
by input position. -/
def lexLE (a b : ℝ × ℕ) : Prop := a.1 < b.1 ∨ (a.1 = b.1 ∧ a.2 ≤ b.2)

instance : IsAntisymm (ℝ × ℕ) lexLE := by
  constructor
  intro a b hab hba
  rcases hab with h1 | ⟨h1, h2⟩ <;> rcases hba with h3 | ⟨h3, h4⟩
  · exact absurd h3 (lt_asymm h1)
  · exact absurd h3 h1.ne'
  · exact absurd h3 (h1 ▸ lt_irrefl _)
  · exact Prod.ext h1 (le_antisymm h2 h4)

/-- Spec-side characterization of an order's candidate list: the
distance-index pairs of `distList`, in ascending distance with ties broken by
input position. -/
def IsCandList (whs : List Warehouse) (o : Order) (l : List (ℝ × ℕ)) : Prop :=
  l.Perm (distList whs o) ∧ l.Pairwise lexLE

lemma distList_pairwise_idx (whs : List Warehouse) (o : Order) :
    (distList whs o).Pairwise (fun a b => a.2 < b.2) :=
  List.Pairwise.map _ (fun a b h => by simpa using h) (List.pairwise_lt_range _)

lemma mem_distList {whs : List Warehouse} {o : Order} {p : ℝ × ℕ}
    (hp : p ∈ distList whs o) :
    p.2 < whs.length ∧
      p.1 = haversine_km o.lat o.lon (wh_at whs p.2).lat (wh_at whs p.2).lon := by
  unfold distList at hp
  obtain ⟨i, hi, rfl⟩ := List.mem_map.1 hp
  rw [List.mem_range] at hi
  exact ⟨hi, rfl⟩

lemma distList_length (whs : List Warehouse) (o : Order) :
    (distList whs o).length = whs.length := by
  simp [distList]

lemma bleTrans : ∀ a b c : ℝ × ℕ, (decide (a.1 ≤ b.1)) = true →
    (decide (b.1 ≤ c.1)) = true → (decide (a.1 ≤ c.1)) = true := by
  intro a b c hab hbc
  simp only [decide_eq_true_eq] at *
  exact le_trans hab hbc

lemma bleTotal : ∀ a b : ℝ × ℕ, (decide (a.1 ≤ b.1) || decide (b.1 ≤ a.1)) = true := by
  intro a b
  simpa using le_total a.1 b.1

lemma sortedDistances_perm (whs : List Warehouse) (o : Order) :
    (sortedDistances whs o).Perm (distList whs o) :=
  List.mergeSort_perm _ _

lemma sortedDistances_length (whs : List Warehouse) (o : Order) :
    (sortedDistances whs o).length = whs.length :=
  (sortedDistances_perm whs o).length_eq.trans (distList_length whs o)

lemma sortedDistances_pairwise_le (whs : List Warehouse) (o : Order) :
    (sortedDistances whs o).Pairwise (fun a b : ℝ × ℕ => a.1 ≤ b.1) :=
  (List.sorted_mergeSort bleTrans bleTotal (distList whs o)).imp
    (fun h => by simpa using h)

lemma pair_sublist_of_mem_lt :
    ∀ {l : List (ℝ × ℕ)}, l.Pairwise (fun a b => a.2 < b.2) →
    ∀ {x y : ℝ × ℕ}, x ∈ l → y ∈ l → x.2 < y.2 → [x, y].Sublist l := by
  intro l
  induction l with
  | nil => intro _ x y hx _ _; simp at hx
  | cons h t ih =>
      intro hp x y hx hy hxy
      rw [List.pairwise_cons] at hp
      rcases List.mem_cons.1 hx with rfl | hxt
      · rcases List.mem_cons.1 hy with rfl | hyt
        · exact absurd hxy (lt_irrefl _)
        · exact List.cons_sublist_cons.2 (List.singleton_sublist.2 hyt)
      · rcases List.mem_cons.1 hy with rfl | hyt
        · exact absurd (hp.1 x hxt) (lt_asymm hxy)
        · exact (ih hp.2 hxt hyt hxy).cons _

lemma sublist_pair_eq {α : Type*} :
    ∀ {l : List α}, l.Nodup → ∀ {a b : α},
      [a, b].Sublist l → [b, a].Sublist l → a = b := by
  intro l
  induction l with
  | nil => intro _ a b hab; exact absurd hab (by simp)
  | cons h t ih =>
      intro hnd a b hab hba
      rw [List.nodup_cons] at hnd
      cases hab with
      | cons _ hab' =>
          cases hba with
          | cons _ hba' => exact ih hnd.2 hab' hba'
          | cons₂ _ hba' =>
              exact absurd (hab'.subset (by simp)) hnd.1
      | cons₂ _ hab' =>
          cases hba with
          | cons _ hba' => exact absurd (hba'.subset (by simp)) hnd.1
          | cons₂ _ hba' => rfl

lemma sortedDistances_pairwise_ne (whs : List Warehouse) (o : Order) :
    (sortedDistances whs o).Pairwise (fun a b : ℝ × ℕ => a.2 ≠ b.2) :=
  ((sortedDistances_perm whs o).pairwise_iff (fun h => h.symm)).2
    ((distList_pairwise_idx whs o).imp (fun h => Nat.ne_of_lt h))

lemma sortedDistances_nodup (whs : List Warehouse) (o : Order) :
    (sortedDistances whs o).Nodup :=
  (sortedDistances_pairwise_ne whs o).imp (fun h heq => h (congrArg Prod.snd heq))

/-- Stability of the source's sort: the sorted candidate list is ordered by
ascending distance with ties broken by position in the input warehouse list. -/
lemma sortedDistances_pairwise_lex (whs : List Warehouse) (o : Order) :
    (sortedDistances whs o).Pairwise lexLE := by
  rw [List.pairwise_iff_forall_sublist]
  intro a b hsub
  have hle : a.1 ≤ b.1 :=
    List.pairwise_iff_forall_sublist.1 (sortedDistances_pairwise_le whs o) hsub
  rcases lt_or_eq_of_le hle with hlt | heq
  · exact Or.inl hlt
  · refine Or.inr ⟨heq, ?_⟩
    by_contra hgt
    push_neg at hgt
    have hmem_a : a ∈ sortedDistances whs o := hsub.subset (by simp)
    have hmem_b : b ∈ sortedDistances whs o := hsub.subset (by simp)
    have hperm := sortedDistances_perm whs o
    have hat : a ∈ distList whs o := hperm.subset hmem_a
    have hbt : b ∈ distList whs o := hperm.subset hmem_b
    have hba : [b, a].Sublist (distList whs o) :=
      pair_sublist_of_mem_lt (distList_pairwise_idx whs o) hbt hat hgt
    have hpw : List.Pairwise
        (fun x y : ℝ × ℕ => (decide (x.1 ≤ y.1)) = true) [b, a] := by
      simp [heq.le, heq.ge]
    have hba' : [b, a].Sublist (sortedDistances whs o) :=
      List.sublist_mergeSort bleTrans bleTotal hpw hba
    have hab : a = b := sublist_pair_eq (sortedDistances_nodup whs o) hsub hba'
    rw [hab] at hgt
    exact absurd hgt (lt_irrefl _)

lemma sortedDistances_isCandList (whs : List Warehouse) (o : Order) :
    IsCandList whs o (sortedDistances whs o) :=
  ⟨sortedDistances_perm whs o, sortedDistances_pairwise_lex whs o⟩

/-- Any list satisfying the spec-side candidate characterization is the one
the code computes: the stable sort's output is the unique permutation of the
candidates ordered by (distance, input position). -/
lemma candList_eq {whs : List Warehouse} {o : Order} {l : List (ℝ × ℕ)}
    (h : IsCandList whs o l) : l = sortedDistances whs o :=
  List.eq_of_perm_of_sorted (h.1.trans (sortedDistances_perm whs o).symm)
    h.2 (sortedDistances_pairwise_lex whs o)

lemma sortedDistances_ne_nil {whs : List Warehouse} (o : Order) (h : whs ≠ []) :
    sortedDistances whs o ≠ [] := by
  intro hnil
  apply h
  have hlen := sortedDistances_length whs o
  rw [hnil] at hlen
  exact List.length_eq_zero.1 hlen.symm

lemma decrement_length (whs : List Warehouse) (i : ℕ) (q : ℤ) :
    (decrement whs i q).length = whs.length := by
  simp [decrement]

lemma processOrder_ok {whs : List Warehouse} (o : Order) (tc bp : ℝ)
    (h : whs ≠ []) :
    ∃ a whs', processOrder whs o tc bp = .ok (a, whs') ∧
      whs'.length = whs.length := by
  simp only [processOrder]
  cases hf : (sortedDistances whs o).find?
      (fun p => decide (o.qty.getD 1 ≤ (wh_at whs p.2).inventory)) with
  | some p =>
      obtain ⟨d, i⟩ := p
      exact ⟨_, _, rfl, by simp [decrement]⟩
  | none =>
      cases hh : (sortedDistances whs o).head? with
      | some p =>
          obtain ⟨d, i⟩ := p
          exact ⟨_, _, rfl, rfl⟩
      | none =>
          exact absurd (List.head?_eq_none_iff.1 hh) (sortedDistances_ne_nil o h)

lemma assignGo_ok {whs : List Warehouse} (orders : List Order) (tc bp : ℝ)
    (h : whs ≠ []) :
    ∃ as, assignGo whs orders tc bp = .ok as ∧ as.length = orders.length := by
  induction orders generalizing whs with
  | nil => exact ⟨[], rfl, rfl⟩
  | cons o rest ih =>
      obtain ⟨a, whs', hpo, hlen⟩ := processOrder_ok o tc bp h
      have h' : whs' ≠ [] := by
        intro hnil
        rw [hnil] at hlen
        exact h (List.length_eq_zero.1 hlen.symm)
      obtain ⟨as, hgo, hlen2⟩ := ih h'
      refine ⟨a :: as, ?_, by simp [hlen2]⟩
      simp [assignGo, hpo, hgo]

lemma processOrder_fields {whs : List Warehouse} {o : Order} {tc bp : ℝ}
    {a : Assignment} {whs' : List Warehouse}
    (hok : processOrder whs o tc bp = .ok (a, whs')) :
    a.order_id = o.id ∧ a.qty = o.qty.getD 1 ∧ a.lat = o.lat ∧ a.lon = o.lon := by
  simp only [processOrder] at hok
  cases hf : (sortedDistances whs o).find?
      (fun p => decide (o.qty.getD 1 ≤ (wh_at whs p.2).inventory)) with
  | some p =>
      obtain ⟨d, i⟩ := p
      rw [hf] at hok
      simp only [Except.ok.injEq, Prod.mk.injEq] at hok
      obtain ⟨ha, -⟩ := hok
      subst ha
      simp [mkAssignment]
  | none =>
      rw [hf] at hok
      cases hh : (sortedDistances whs o).head? with
      | some p =>
          obtain ⟨d, i⟩ := p
          rw [hh] at hok
          simp only [Except.ok.injEq, Prod.mk.injEq] at hok
          obtain ⟨ha, -⟩ := hok
          subst ha
          simp [mkAssignment]
      | none =>
          rw [hh] at hok
          exact absurd hok (by simp)

/-- C2: the engine yields exactly one assignment per input order whenever the
warehouse list is non-empty. -/
theorem C2_one_assignment_per_order (whs : List Warehouse) (orders : List Order)
    (tc bp : ℝ) (hne : whs ≠ []) :
    ∃ as, assign_orders_to_warehouses whs orders tc bp = .ok as ∧
      as.length = orders.length := by
  simp only [assign_orders_to_warehouses]
  exact assignGo_ok orders tc bp hne

theorem C2_one_assignment_per_order_witness :
    ([⟨1, "WH-A", 28.61, 77.23, 10, 5.0⟩] : List Warehouse) ≠ [] ∧
    ∃ as, assign_orders_to_warehouses [⟨1, "WH-A", 28.61, 77.23, 10, 5.0⟩]
        [⟨1, 28.62, 77.23, some 1⟩, ⟨2, 28.63, 77.23, some 1⟩] 0.5 50.0 = .ok as ∧
      as.length = 2 :=
  ⟨by simp,
    C2_one_assignment_per_order [⟨1, "WH-A", 28.61, 77.23, 10, 5.0⟩]
      [⟨1, 28.62, 77.23, some 1⟩, ⟨2, 28.63, 77.23, some 1⟩] 0.5 50.0 (by simp)⟩

/-- C10: the i-th assignment corresponds positionally to the i-th order,
carrying its id, its (defaulted) quantity, and its coordinates. -/
theorem C10_positional_order_preservation (whs : List Warehouse)
    (orders : List Order) (tc bp : ℝ) (i : ℕ) (hne : whs ≠ [])
    (hi : i < orders.length) :
    ∃ as a, assign_orders_to_warehouses whs orders tc bp = .ok as ∧
      as[i]? = some a ∧
      a.order_id = (orders.getD i default).id ∧
      a.qty = (orders.getD i default).qty.getD 1 ∧
      a.lat = (orders.getD i default).lat ∧
      a.lon = (orders.getD i default).lon := by
  simp only [assign_orders_to_warehouses]
  induction orders generalizing whs i with
  | nil => exact absurd hi (by simp)
  | cons o rest ih =>
      obtain ⟨a0, whs', hpo, hlen⟩ := processOrder_ok o tc bp hne
      have hne' : whs' ≠ [] := by
        intro hnil
        rw [hnil] at hlen
        exact hne (List.length_eq_zero.1 hlen.symm)
      cases i with
      | zero =>
          obtain ⟨as', hgo, -⟩ := assignGo_ok rest tc bp hne'
          obtain ⟨h1, h2, h3, h4⟩ := processOrder_fields hpo
          exact ⟨a0 :: as', a0, by simp [assignGo, hpo, hgo], by simp,
            by simpa using h1, by simpa using h2, by simpa using h3,
            by simpa using h4⟩
      | succ j =>
          have hj : j < rest.length := by simpa using hi
          obtain ⟨as', a, hgo, hget, h1, h2, h3, h4⟩ := ih whs' j hne' hj
          exact ⟨a0 :: as', a, by simp [assignGo, hpo, hgo], by simpa using hget,
            by simpa using h1, by simpa using h2, by simpa using h3,
            by simpa using h4⟩

theorem C10_positional_order_preservation_witness :
    ([⟨1, "WH-A", 28.61, 77.23, 10, 5.0⟩] : List Warehouse) ≠ [] ∧
    (1 : ℕ) < 2 ∧
    ∃ (as : List Assignment) (a : Assignment),
      assign_orders_to_warehouses [⟨1, "WH-A", 28.61, 77.23, 10, 5.0⟩]
        [⟨7, 28.62, 77.23, some 1⟩, ⟨9, 28.63, 77.21, none⟩] 0.5 50.0 = .ok as ∧
      as[1]? = some a ∧
      a.order_id = 9 ∧ a.qty = 1 ∧ a.lat = 28.63 ∧ a.lon = 77.21 := by
  refine ⟨by simp, by norm_num, ?_⟩
  have h := C10_positional_order_preservation
    [⟨1, "WH-A", 28.61, 77.23, 10, 5.0⟩]
    [⟨7, 28.62, 77.23, some 1⟩, ⟨9, 28.63, 77.21, none⟩] 0.5 50.0 1
    (by simp) (by norm_num)
  simpa using h

/-- C1: per order, against any candidate list that is a permutation of the
distance pairs sorted by ascending distance with ties broken by input order
(`IsCandList`), the engine assigns the first warehouse with inventory at
least the order's quantity, decrements exactly that quantity, and flags no
backorder; when none qualifies it assigns the head of the candidate list (the
nearest warehouse), decrements nothing, and flags a backorder. -/
theorem C1_greedy_assignment (whs : List Warehouse) (o : Order) (rest : List Order)
    (tc bp : ℝ) (l : List (ℝ × ℕ)) (hne : whs ≠ []) (hl : IsCandList whs o l) :
    (∀ d i, l.find? (fun p => decide (o.qty.getD 1 ≤ (wh_at whs p.2).inventory)) =
        some (d, i) →
      i < whs.length ∧
      o.qty.getD 1 ≤ (wh_at whs i).inventory ∧
      d = haversine_km o.lat o.lon (wh_at whs i).lat (wh_at whs i).lon ∧
      (mkAssignment o (wh_at whs i) d false tc bp).backorder = false ∧
      ∃ as, assignGo (decrement whs i (o.qty.getD 1)) rest tc bp = .ok as ∧
        assignGo whs (o :: rest) tc bp =
          .ok (mkAssignment o (wh_at whs i) d false tc bp :: as)) ∧
    (l.find? (fun p => decide (o.qty.getD 1 ≤ (wh_at whs p.2).inventory)) = none →
      ∃ d i, l.head? = some (d, i) ∧ i < whs.length ∧
        d = haversine_km o.lat o.lon (wh_at whs i).lat (wh_at whs i).lon ∧
        (mkAssignment o (wh_at whs i) d true tc bp).backorder = true ∧
        ∃ as, assignGo whs rest tc bp = .ok as ∧
          assignGo whs (o :: rest) tc bp =
            .ok (mkAssignment o (wh_at whs i) d true tc bp :: as)) := by
  have hleq : l = sortedDistances whs o := candList_eq hl
  subst hleq
  constructor
  · intro d i hf
    have hmem : (d, i) ∈ sortedDistances whs o := List.mem_of_find?_eq_some hf
    have hmem' : (d, i) ∈ distList whs o := (sortedDistances_perm whs o).subset hmem
    have hdi := mem_distList hmem'
    have hp := List.find?_some hf
    simp only [decide_eq_true_eq] at hp
    refine ⟨hdi.1, hp, hdi.2, by simp [mkAssignment], ?_⟩
    have hne' : decrement whs i (o.qty.getD 1) ≠ [] := by
      intro hnil
      have := decrement_length whs i (o.qty.getD 1)
      rw [hnil] at this
      exact hne (List.length_eq_zero.1 this.symm)
    obtain ⟨as, hgo, -⟩ := assignGo_ok rest tc bp hne'
    exact ⟨as, hgo, by simp [assignGo, processOrder, hf, hgo]⟩
  · intro hf
    obtain ⟨p, hh⟩ : ∃ p, (sortedDistances whs o).head? = some p := by
      cases hhh : (sortedDistances whs o).head? with
      | some p => exact ⟨p, rfl⟩
      | none =>
          exact absurd (List.head?_eq_none_iff.1 hhh) (sortedDistances_ne_nil o hne)
    obtain ⟨d, i⟩ := p
    have hmem : (d, i) ∈ sortedDistances whs o := by
      cases hs : sortedDistances whs o with
      | nil => rw [hs] at hh; exact absurd hh (by simp)
      | cons x t =>
          rw [hs] at hh
          simp only [List.head?_cons, Option.some.injEq] at hh
          rw [hh]
          exact List.mem_cons_self _ _
    have hmem' : (d, i) ∈ distList whs o := (sortedDistances_perm whs o).subset hmem
    have hdi := mem_distList hmem'
    obtain ⟨as, hgo, -⟩ := assignGo_ok rest tc bp hne
    exact ⟨d, i, hh, hdi.1, hdi.2, by simp [mkAssignment],
      as, hgo, by simp [assignGo, processOrder, hf, hh, hgo]⟩

theorem C1_greedy_assignment_witness :
    (0 : ℕ) < ([⟨1, "W", 1, 1, 5, 2.0⟩] : List Warehouse).length ∧
    (⟨1, 0, 0, some 1⟩ : Order).qty.getD 1 ≤ (wh_at [⟨1, "W", 1, 1, 5, 2.0⟩] 0).inventory ∧
    haversine_km 0 0 1 1 =
      haversine_km (⟨1, 0, 0, some 1⟩ : Order).lat (⟨1, 0, 0, some 1⟩ : Order).lon
        (wh_at [⟨1, "W", 1, 1, 5, 2.0⟩] 0).lat (wh_at [⟨1, "W", 1, 1, 5, 2.0⟩] 0).lon ∧
    (mkAssignment ⟨1, 0, 0, some 1⟩ (wh_at [⟨1, "W", 1, 1, 5, 2.0⟩] 0)
      (haversine_km 0 0 1 1) false 0.5 50.0).backorder = false ∧
    ∃ as, assignGo (decrement [⟨1, "W", 1, 1, 5, 2.0⟩] 0
        ((⟨1, 0, 0, some 1⟩ : Order).qty.getD 1)) [] 0.5 50.0 = .ok as ∧
      assignGo [⟨1, "W", 1, 1, 5, 2.0⟩] [⟨1, 0, 0, some 1⟩] 0.5 50.0 =
        .ok (mkAssignment ⟨1, 0, 0, some 1⟩ (wh_at [⟨1, "W", 1, 1, 5, 2.0⟩] 0)
          (haversine_km 0 0 1 1) false 0.5 50.0 :: as) :=
  (C1_greedy_assignment [⟨1, "W", 1, 1, 5, 2.0⟩] ⟨1, 0, 0, some 1⟩ [] 0.5 50.0
      [(haversine_km 0 0 1 1, 0)] (by simp)
      ⟨by simp [distList, wh_at, List.range_succ], by simp⟩).1
    (haversine_km 0 0 1 1) 0 (by simp [wh_at])

/-- C6 counterexample: on an empty warehouse list with a non-empty order list
the engine fails with the uncaught `IndexError` from `distances[0]`, not with
the spec's designed `InvalidInput` error. -/
theorem C6_counterexample :
    assign_orders_to_warehouses [] [⟨1, 0, 0, some 1⟩] 0.5 50.0 =
      .error AssignError.indexError ∧
    AssignError.indexError ≠ AssignError.invalidInput := by
  constructor
  · simp [assign_orders_to_warehouses, assignGo, processOrder, sortedDistances, distList]
  · decide

/-- C6 amended: for an empty warehouse list and any non-empty order list, the
engine fails with an (undesigned) `IndexError` — the Python `distances[0]` on
an empty list — rather than the spec's `InvalidInput`. -/
theorem C6_empty_warehouses_index_error (o : Order) (os : List Order) (tc bp : ℝ) :
    assign_orders_to_warehouses [] (o :: os) tc bp = .error AssignError.indexError := by
  simp [assign_orders_to_warehouses, assignGo, processOrder, sortedDistances, distList]

/-- C5 counterexample: when the external solver reports no feasible solution,
`solve_vrp` returns the plain empty route list — the same value a successful
solve with zero vehicles produces — rather than any distinguishable
`NoSolution` condition. -/
theorem C5_counterexample :
    solve_vrp [[0]] 1 none = [] ∧
    solve_vrp [[0]] 0 (some fun _ => [0, 0]) = [] := by
  constructor <;> rfl

/-- C5 amended: whenever the solver output is `none` (no feasible solution),
`solve_vrp` silently returns the empty list of routes; its return type has no
error channel, so no `NoSolution` condition is reported. -/
theorem C5_no_solution_returns_empty (dm : List (List ℤ)) (n : ℕ) :
    solve_vrp dm n none = [] := rfl

lemma hav_a_comm (lat1 lon1 lat2 lon2 : ℝ) :
    hav_a lat1 lon1 lat2 lon2 = hav_a lat2 lon2 lat1 lon1 := by
  simp only [hav_a, radians]
  have h1 : (lat1 - lat2) * Real.pi / 180 / 2 = -((lat2 - lat1) * Real.pi / 180 / 2) := by
    ring
  have h2 : (lon1 - lon2) * Real.pi / 180 / 2 = -((lon2 - lon1) * Real.pi / 180 / 2) := by
    ring
  rw [h1, h2, Real.sin_neg, Real.sin_neg]
  ring

lemma haversine_km_comm (lat1 lon1 lat2 lon2 : ℝ) :
    haversine_km lat1 lon1 lat2 lon2 = haversine_km lat2 lon2 lat1 lon1 := by
  unfold haversine_km
  rw [hav_a_comm]

lemma getD_map_range {α : Type*} (f : ℕ → α) (dflt : α) {n i : ℕ} (h : i < n) :
    ((List.range n).map f).getD i dflt = f i := by
  rw [List.getD_eq_getElem _ _ (by simpa using h)]
  simp

/-- C3: the distance matrix on a depot and `n` stops is `(n+1) × (n+1)` with
index 0 the depot and index `k+1` the `k`-th stop; every entry `[i][j]` with
`i ≠ j` is the great-circle distance scaled by 1000 and truncated to an
integer, the diagonal is zero, and the matrix is symmetric. -/
theorem C3_build_distance_matrix (depot : Loc) (customers : List Loc) :
    (build_distance_matrix depot customers).length = customers.length + 1 ∧
    (∀ i, i < customers.length + 1 →
      ((build_distance_matrix depot customers).getD i []).length =
        customers.length + 1) ∧
    loc_at (depot :: customers) 0 = depot ∧
    (∀ k, k < customers.length →
      loc_at (depot :: customers) (k + 1) = customers.getD k default) ∧
    (∀ i, i < customers.length + 1 →
      ((build_distance_matrix depot customers).getD i []).getD i 0 = 0) ∧
    (∀ i j, i < customers.length + 1 → j < customers.length + 1 → i ≠ j →
      ((build_distance_matrix depot customers).getD i []).getD j 0 =
        truncInt (haversine_km (loc_at (depot :: customers) i).lat
          (loc_at (depot :: customers) i).lon
          (loc_at (depot :: customers) j).lat
          (loc_at (depot :: customers) j).lon * 1000)) ∧
    (∀ i j, i < customers.length + 1 → j < customers.length + 1 →
      ((build_distance_matrix depot customers).getD i []).getD j 0 =
        ((build_distance_matrix depot customers).getD j []).getD i 0) := by
  have hlen : (depot :: customers).length = customers.length + 1 := by simp
  have hrow : ∀ i, i < customers.length + 1 →
      (build_distance_matrix depot customers).getD i [] =
        (List.range (customers.length + 1)).map (fun j =>
          if i = j then 0
          else truncInt (haversine_km (loc_at (depot :: customers) i).lat
            (loc_at (depot :: customers) i).lon
            (loc_at (depot :: customers) j).lat
            (loc_at (depot :: customers) j).lon * 1000)) := by
    intro i hi
    simp only [build_distance_matrix, hlen]
    exact getD_map_range _ _ hi
  have hentry : ∀ i j, i < customers.length + 1 → j < customers.length + 1 →
      ((build_distance_matrix depot customers).getD i []).getD j 0 =
        (if i = j then 0
          else truncInt (haversine_km (loc_at (depot :: customers) i).lat
            (loc_at (depot :: customers) i).lon
            (loc_at (depot :: customers) j).lat
            (loc_at (depot :: customers) j).lon * 1000)) := by
    intro i j hi hj
    rw [hrow i hi]
    exact getD_map_range _ _ hj
  refine ⟨by simp [build_distance_matrix, hlen], ?_, rfl, ?_, ?_, ?_, ?_⟩
  · intro i hi
    rw [hrow i hi]
    simp
  · intro k hk
    simp [loc_at]
  · intro i hi
    rw [hentry i i hi hi]
    simp
  · intro i j hi hj hne
    rw [hentry i j hi hj]
    simp [hne]
  · intro i j hi hj
    rw [hentry i j hi hj, hentry j i hj hi]
    by_cases h : i = j
    · simp [h]
    · have h' : j ≠ i := fun hh => h hh.symm
      simp only [h, h', if_false]
      rw [haversine_km_comm]

theorem C3_build_distance_matrix_witness :
    (build_distance_matrix ⟨0, 0⟩ [⟨0, 1⟩]).length = 2 ∧
    ((build_distance_matrix ⟨0, 0⟩ [⟨0, 1⟩]).getD 0 []).getD 0 0 = 0 ∧
    ((build_distance_matrix ⟨0, 0⟩ [⟨0, 1⟩]).getD 0 []).getD 1 0 =
      truncInt (haversine_km (loc_at [⟨0, 0⟩, ⟨0, 1⟩] 0).lat
        (loc_at [⟨0, 0⟩, ⟨0, 1⟩] 0).lon (loc_at [⟨0, 0⟩, ⟨0, 1⟩] 1).lat
        (loc_at [⟨0, 0⟩, ⟨0, 1⟩] 1).lon * 1000) ∧
    ((build_distance_matrix ⟨0, 0⟩ [⟨0, 1⟩]).getD 0 []).getD 1 0 =
      ((build_distance_matrix ⟨0, 0⟩ [⟨0, 1⟩]).getD 1 []).getD 0 0 := by
  have h := C3_build_distance_matrix ⟨0, 0⟩ [⟨0, 1⟩]
  exact ⟨h.1, h.2.2.2.2.1 0 (by norm_num),
    h.2.2.2.2.2.1 0 1 (by norm_num) (by norm_num) (by norm_num),
    h.2.2.2.2.2.2 0 1 (by norm_num) (by norm_num)⟩

lemma hav_a_self (lat lon : ℝ) : hav_a lat lon lat lon = 0 := by
  simp [hav_a, radians, sub_self]

lemma haversine_km_self (lat lon : ℝ) : haversine_km lat lon lat lon = 0 := by
  simp [haversine_km, hav_a_self]

lemma hav_a_bounds (lat1 lon1 lat2 lon2 : ℝ) :
    0 ≤ hav_a lat1 lon1 lat2 lon2 ∧ hav_a lat1 lon1 lat2 lon2 ≤ 1 := by
  simp only [hav_a, radians]
  have hxy : (lat2 - lat1) * Real.pi / 180 / 2 =
      (lat2 * Real.pi / 180 - lat1 * Real.pi / 180) / 2 := by ring
  rw [hxy]
  set x := lat1 * Real.pi / 180 with hx
  set y := lat2 * Real.pi / 180 with hy
  set w := (lon2 - lon1) * Real.pi / 180 / 2 with hw
  have h1 : Real.sin ((y - x) / 2) ^ 2 = 1 / 2 - Real.cos (y - x) / 2 := by
    rw [Real.sin_sq_eq_half_sub, show 2 * ((y - x) / 2) = y - x from by ring]
  have h2 : Real.cos (y - x) = Real.cos y * Real.cos x + Real.sin y * Real.sin x :=
    Real.cos_sub y x
  have h3 : Real.cos (y + x) = Real.cos y * Real.cos x - Real.sin y * Real.sin x :=
    Real.cos_add y x
  have hs0 : 0 ≤ Real.sin w ^ 2 := sq_nonneg _
  have hs1 : Real.sin w ^ 2 ≤ 1 := Real.sin_sq_le_one w
  have hc1 : Real.cos (y + x) ≤ 1 := Real.cos_le_one _
  have hc2 : -1 ≤ Real.cos (y + x) := Real.neg_one_le_cos _
  have hc4 : -1 ≤ Real.cos (y - x) := Real.neg_one_le_cos _
  constructor
  · rcases le_or_lt 0 (Real.cos x * Real.cos y) with hpos | hneg
    · exact add_nonneg (sq_nonneg _) (mul_nonneg hpos hs0)
    · have h4 : Real.cos x * Real.cos y * 1 ≤ Real.cos x * Real.cos y * Real.sin w ^ 2 :=
        mul_le_mul_of_nonpos_left hs1 (le_of_lt hneg)
      nlinarith [h1, h2, h3, h4, hc2]
  · rcases le_or_lt 0 (Real.cos x * Real.cos y) with hpos | hneg
    · have h5 : Real.cos x * Real.cos y * Real.sin w ^ 2 ≤ Real.cos x * Real.cos y * 1 :=
        mul_le_mul_of_nonneg_left hs1 hpos
      nlinarith [h1, h2, h3, h5, hc1]
    · have h6 : Real.cos x * Real.cos y * Real.sin w ^ 2 ≤ 0 :=
        mul_nonpos_of_nonpos_of_nonneg (le_of_lt hneg) hs0
      nlinarith [h1, hc4, h6]

/-- C8: in exact real arithmetic the argument handed to the inverse sine,
`sqrt(a)`, always lies in the valid domain `[0, 1]`; no clamp appears anywhere
in `haversine_km`, so only floating-point overshoot of this bound (which the
spec's required clamp would absorb) can produce a domain error. -/
theorem C8_half_chord_argument_in_unit_interval (lat1 lon1 lat2 lon2 : ℝ) :
    0 ≤ Real.sqrt (hav_a lat1 lon1 lat2 lon2) ∧
    Real.sqrt (hav_a lat1 lon1 lat2 lon2) ≤ 1 :=
  ⟨Real.sqrt_nonneg _, Real.sqrt_le_one.2 (hav_a_bounds lat1 lon1 lat2 lon2).2⟩

/-- C9 counterexample: the two distinct coordinate pairs (90, 0) and (90, 90)
— both at the north pole — have haversine distance 0, so distance zero does
not imply equal coordinate pairs. -/
theorem C9_counterexample :
    haversine_km 90 0 90 90 = 0 ∧ ((0 : ℝ) ≠ (90 : ℝ)) := by
  constructor
  · have ha : hav_a 90 0 90 90 = 0 := by
      simp only [hav_a, radians]
      rw [show ((90 : ℝ) - 90) * Real.pi / 180 / 2 = 0 from by ring,
        show (90 : ℝ) * Real.pi / 180 = Real.pi / 2 from by ring]
      simp [Real.cos_pi_div_two]
    simp [haversine_km, ha]
  · norm_num

/-- C9 amended: the distance is symmetric and zero on identical coordinate
pairs for all inputs; and for latitudes strictly inside (-90, 90) and
longitudes less than 360 degrees apart, it is zero exactly on identical
coordinate pairs.  (At the poles, and for longitudes 360 degrees apart,
distinct pairs denoting the same geographic point also get distance 0.) -/
theorem C9_haversine_symmetry_and_zero (lat1 lon1 lat2 lon2 : ℝ) :
    haversine_km lat1 lon1 lat2 lon2 = haversine_km lat2 lon2 lat1 lon1 ∧
    haversine_km lat1 lon1 lat1 lon1 = 0 ∧
    (-90 < lat1 → lat1 < 90 → -90 < lat2 → lat2 < 90 → |lon1 - lon2| < 360 →
      (haversine_km lat1 lon1 lat2 lon2 = 0 ↔ lat1 = lat2 ∧ lon1 = lon2)) := by
  refine ⟨haversine_km_comm lat1 lon1 lat2 lon2, haversine_km_self lat1 lon1, ?_⟩
  intro hl1 hl2 hl3 hl4 hlon
  constructor
  · intro h0
    have ha0 : hav_a lat1 lon1 lat2 lon2 = 0 := by
      have hnn := (hav_a_bounds lat1 lon1 lat2 lon2).1
      by_contra hne
      have hpos : 0 < hav_a lat1 lon1 lat2 lon2 := lt_of_le_of_ne hnn (Ne.symm hne)
      have hsq : 0 < Real.sqrt (hav_a lat1 lon1 lat2 lon2) := Real.sqrt_pos.2 hpos
      have harc : 0 < Real.arcsin (Real.sqrt (hav_a lat1 lon1 lat2 lon2)) :=
        Real.arcsin_pos.2 hsq
      unfold haversine_km at h0
      nlinarith [harc]
    simp only [hav_a, radians] at ha0
    have hcos1 : 0 < Real.cos (lat1 * Real.pi / 180) := by
      apply Real.cos_pos_of_mem_Ioo
      constructor
      · nlinarith [Real.pi_pos]
      · nlinarith [Real.pi_pos]
    have hcos2 : 0 < Real.cos (lat2 * Real.pi / 180) := by
      apply Real.cos_pos_of_mem_Ioo
      constructor
      · nlinarith [Real.pi_pos]
      · nlinarith [Real.pi_pos]
    have hA0 : (0 : ℝ) ≤ Real.sin ((lat2 - lat1) * Real.pi / 180 / 2) ^ 2 := sq_nonneg _
    have hB0 : (0 : ℝ) ≤ Real.cos (lat1 * Real.pi / 180) * Real.cos (lat2 * Real.pi / 180) *
        Real.sin ((lon2 - lon1) * Real.pi / 180 / 2) ^ 2 :=
      mul_nonneg (mul_nonneg hcos1.le hcos2.le) (sq_nonneg _)
    have hA : Real.sin ((lat2 - lat1) * Real.pi / 180 / 2) ^ 2 = 0 := by linarith
    have hB : Real.cos (lat1 * Real.pi / 180) * Real.cos (lat2 * Real.pi / 180) *
        Real.sin ((lon2 - lon1) * Real.pi / 180 / 2) ^ 2 = 0 := by linarith
    have hsinA : Real.sin ((lat2 - lat1) * Real.pi / 180 / 2) = 0 :=
      (pow_eq_zero_iff (by norm_num : (2 : ℕ) ≠ 0)).1 hA
    have hargA : (lat2 - lat1) * Real.pi / 180 / 2 = 0 := by
      rw [← Real.sin_eq_zero_iff_of_lt_of_lt (by nlinarith [Real.pi_pos])
        (by nlinarith [Real.pi_pos])]
      exact hsinA
    have hlat : lat2 - lat1 = 0 := by
      by_contra hnz
      have hne : (lat2 - lat1) * Real.pi / 180 / 2 ≠ 0 :=
        div_ne_zero (div_ne_zero (mul_ne_zero hnz Real.pi_ne_zero) (by norm_num))
          (by norm_num)
      exact hne hargA
    have hsinB : Real.sin ((lon2 - lon1) * Real.pi / 180 / 2) ^ 2 = 0 := by
      rcases mul_eq_zero.1 hB with h | h
      · exact absurd h (ne_of_gt (mul_pos hcos1 hcos2))
      · exact h
    have hsinB' : Real.sin ((lon2 - lon1) * Real.pi / 180 / 2) = 0 :=
      (pow_eq_zero_iff (by norm_num : (2 : ℕ) ≠ 0)).1 hsinB
    have hlon' : |lon2 - lon1| < 360 := by
      rw [abs_sub_comm]
      exact hlon
    have hlonlt := abs_lt.1 hlon'
    have hargB : (lon2 - lon1) * Real.pi / 180 / 2 = 0 := by
      rw [← Real.sin_eq_zero_iff_of_lt_of_lt (by nlinarith [Real.pi_pos])
        (by nlinarith [Real.pi_pos])]
      exact hsinB'
    have hlon0 : lon2 - lon1 = 0 := by
      by_contra hnz
      have hne : (lon2 - lon1) * Real.pi / 180 / 2 ≠ 0 :=
        div_ne_zero (div_ne_zero (mul_ne_zero hnz Real.pi_ne_zero) (by norm_num))
          (by norm_num)
      exact hne hargB
    exact ⟨by linarith, by linarith⟩
  · rintro ⟨rfl, rfl⟩
    exact haversine_km_self lat1 lon1

theorem C9_haversine_symmetry_and_zero_witness :
    haversine_km 10 20 30 40 = haversine_km 30 40 10 20 ∧
    haversine_km 10 20 10 20 = 0 ∧
    (haversine_km 10 20 30 40 = 0 ↔ (10 : ℝ) = 30 ∧ (20 : ℝ) = 40) :=
  ⟨(C9_haversine_symmetry_and_zero 10 20 30 40).1,
    (C9_haversine_symmetry_and_zero 10 20 10 20).2.1,
    (C9_haversine_symmetry_and_zero 10 20 30 40).2.2 (by norm_num) (by norm_num)
      (by norm_num) (by norm_num) (by norm_num)⟩

lemma hav_a_quarter : hav_a 0 0 0 90 = 1 / 2 := by
  simp only [hav_a, radians]
  rw [show ((0 : ℝ) - 0) * Real.pi / 180 / 2 = 0 from by ring,
    show (0 : ℝ) * Real.pi / 180 = 0 from by ring,
    show ((90 : ℝ) - 0) * Real.pi / 180 / 2 = Real.pi / 4 from by ring]
  rw [Real.sin_pi_div_four]
  rw [div_pow, Real.sq_sqrt (by norm_num : (0 : ℝ) ≤ 2)]
  norm_num

lemma haversine_quarter : haversine_km 0 0 0 90 = 6371 * Real.pi / 2 := by
  unfold haversine_km
  rw [hav_a_quarter]
  have hsq : Real.sqrt (1 / 2) = Real.sin (Real.pi / 4) := by
    rw [Real.sin_pi_div_four,
      show (1 / 2 : ℝ) = (Real.sqrt 2 / 2) ^ 2 from by
        rw [div_pow, Real.sq_sqrt (by norm_num : (0 : ℝ) ≤ 2)]; norm_num]
    exact Real.sqrt_sq (by positivity)
  rw [hsq, Real.arcsin_sin (by nlinarith [Real.pi_pos]) (by nlinarith [Real.pi_pos])]
  ring

lemma round_318550_pi : round ((318550 : ℝ) * Real.pi) = 1000754 := by
  rw [round_eq]
  apply Int.floor_eq_iff.2
  constructor
  · push_cast
    linarith [Real.pi_gt_d6]
  · push_cast
    linarith [Real.pi_lt_d6]

lemma round_159275_pi : round ((159275 : ℝ) * Real.pi) = 500377 := by
  rw [round_eq]
  apply Int.floor_eq_iff.2
  constructor
  · push_cast
    linarith [Real.pi_gt_d6]
  · push_cast
    linarith [Real.pi_lt_d6]

lemma round_total_pi : round ((159275 : ℝ) * Real.pi + 0.45) = 500378 := by
  rw [round_eq]
  apply Int.floor_eq_iff.2
  constructor
  · push_cast
    linarith [Real.pi_gt_d6]
  · push_cast
    linarith [Real.pi_lt_d6]

/-- Warehouse of the C7 cost-rounding scenario: at (0, 90), ample inventory,
unit cost 0.0045. -/
def c7w : Warehouse := ⟨1, "WH-A", 0, 90, 10, 0.0045⟩

/-- Order of the C7 cost-rounding scenario: at (0, 0), quantity 1. -/
def c7o : Order := ⟨1, 0, 0, some 1⟩

/-- The assignment record the engine produces in the C7 scenario: distance
6371·π/2 km, every recorded field individually rounded to 2 decimals. -/
noncomputable def c7a : Assignment :=
  ⟨1, 1, "WH-A", 1000754 / 100, 500377 / 100, 0, false, 500378 / 100, 1, 0, 0⟩

lemma c7_sorted : sortedDistances [c7w] c7o = [(haversine_km 0 0 0 90, 0)] := by
  simp [sortedDistances, distList, wh_at, c7w, c7o, List.range_succ]

lemma c7_mk : mkAssignment c7o (wh_at [c7w] 0) (haversine_km 0 0 0 90) false 0.5 50.0
    = c7a := by
  have h1 : round2 (6371 * Real.pi / 2) = 1000754 / 100 := by
    unfold round2
    rw [show (6371 * Real.pi / 2) * 100 = (318550 : ℝ) * Real.pi from by ring,
      round_318550_pi]
    norm_num
  have h2 : round2 (6371 * Real.pi / 2 * 0.5) = 500377 / 100 := by
    unfold round2
    rw [show (6371 * Real.pi / 2 * 0.5) * 100 = (159275 : ℝ) * Real.pi from by ring,
      round_159275_pi]
    norm_num
  have h3 : round2 ((0.0045 : ℝ) * 1) = 0 := by
    unfold round2
    rw [show ((0.0045 : ℝ) * 1) * 100 = (0.45 : ℝ) from by norm_num, round_eq]
    rw [show ⌊(0.45 : ℝ) + 1 / 2⌋ = 0 from
      Int.floor_eq_iff.2 (by constructor <;> norm_num)]
    norm_num
  have h4 : round2 (6371 * Real.pi / 2 * 0.5 + (0.0045 : ℝ) * 1 + 0.0) = 500378 / 100 := by
    unfold round2
    rw [show (6371 * Real.pi / 2 * 0.5 + (0.0045 : ℝ) * 1 + 0.0) * 100 =
        (159275 : ℝ) * Real.pi + 0.45 from by ring, round_total_pi]
    norm_num
  simp only [mkAssignment, c7o, c7a, wh_at, c7w, haversine_quarter,
    List.getD_cons_zero, Option.getD_some, Int.cast_one, Bool.false_eq_true,
    if_false]
  congr 1

lemma c7_eval : assign_orders_to_warehouses [c7w] [c7o] 0.5 50.0 = .ok [c7a] := by
  have hfind : (sortedDistances [c7w] c7o).find?
      (fun p => decide (c7o.qty.getD 1 ≤ (wh_at [c7w] p.2).inventory)) =
      some (haversine_km 0 0 0 90, 0) := by
    rw [c7_sorted]
    simp [wh_at, c7w, c7o]
  simp only [assign_orders_to_warehouses, assignGo, processOrder, hfind]
  rw [c7_mk]

/-- C7 counterexample: in the default configuration, the engine's recorded
total cost is not the sum of the recorded transport and item costs (plus
penalty): each field is rounded to 2 decimals separately, and the sub-cent
parts can carry.  Here transport = 6371·π/4 ≈ 5003.7717 and item = 0.0045
record as 5003.77 and 0.00, yet the recorded total is 5003.78. -/
theorem C7_counterexample :
    assign_orders_to_warehouses [c7w] [c7o] 0.5 50.0 = .ok [c7a] ∧
    c7a.total_cost ≠ c7a.transport_cost + c7a.item_cost +
      (if c7a.backorder then (50.0 : ℝ) else 0.0) := by
  refine ⟨c7_eval, ?_⟩
  simp only [c7a]
  norm_num

lemma wh_at_mem {whs : List Warehouse} {i : ℕ} (hi : i < whs.length) :
    wh_at whs i ∈ whs := by
  unfold wh_at
  rw [List.getD_eq_getElem _ _ hi]
  exact List.getElem_mem hi

lemma mem_decrement {whs : List Warehouse} {i : ℕ} {q : ℤ} {w : Warehouse}
    (hi : i < whs.length) (hw : w ∈ decrement whs i q) :
    ∃ w0, w0 ∈ whs ∧ w0.id = w.id ∧ w0.name = w.name ∧ w0.lat = w.lat ∧
      w0.lon = w.lon ∧ w0.unit_cost = w.unit_cost := by
  rcases List.mem_or_eq_of_mem_set hw with h | h
  · exact ⟨w, h, rfl, rfl, rfl, rfl, rfl⟩
  · subst h
    exact ⟨wh_at whs i, wh_at_mem hi, rfl, rfl, rfl, rfl, rfl⟩

lemma processOrder_cost_fields {whs : List Warehouse} {o : Order} {tc bp : ℝ}
    {a : Assignment} {whs' : List Warehouse}
    (hok : processOrder whs o tc bp = .ok (a, whs')) :
    (∃ w, w ∈ whs ∧
      a.warehouse_id = w.id ∧ a.warehouse_name = w.name ∧
      a.dist_km = round2 (haversine_km o.lat o.lon w.lat w.lon) ∧
      a.transport_cost = round2 (haversine_km o.lat o.lon w.lat w.lon * tc) ∧
      a.item_cost = round2 (w.unit_cost * (a.qty : ℝ)) ∧
      a.total_cost = round2 (haversine_km o.lat o.lon w.lat w.lon * tc +
        w.unit_cost * (a.qty : ℝ) + (if a.backorder then bp else 0.0))) ∧
    (∀ w', w' ∈ whs' → ∃ w0, w0 ∈ whs ∧ w0.id = w'.id ∧ w0.name = w'.name ∧
      w0.lat = w'.lat ∧ w0.lon = w'.lon ∧ w0.unit_cost = w'.unit_cost) := by
  simp only [processOrder] at hok
  cases hf : (sortedDistances whs o).find?
      (fun p => decide (o.qty.getD 1 ≤ (wh_at whs p.2).inventory)) with
  | some p =>
      obtain ⟨d, i⟩ := p
      rw [hf] at hok
      simp only [Except.ok.injEq, Prod.mk.injEq] at hok
      obtain ⟨ha, hw⟩ := hok
      have hmem : (d, i) ∈ distList whs o :=
        (sortedDistances_perm whs o).subset (List.mem_of_find?_eq_some hf)
      have hdi := mem_distList hmem
      have hlen : i < whs.length := hdi.1
      have hd : d = haversine_km o.lat o.lon (wh_at whs i).lat (wh_at whs i).lon := hdi.2
      subst ha
      refine ⟨⟨wh_at whs i, wh_at_mem hlen, ?_, ?_, ?_, ?_, ?_, ?_⟩, ?_⟩
      · simp [mkAssignment]
      · simp [mkAssignment]
      · simp only [mkAssignment]
        rw [hd]
      · simp only [mkAssignment]
        rw [hd]
      · simp [mkAssignment]
      · simp only [mkAssignment]
        rw [hd]
      · intro w' hw'
        rw [← hw] at hw'
        exact mem_decrement hlen hw'
  | none =>
      rw [hf] at hok
      cases hh : (sortedDistances whs o).head? with
      | some p =>
          obtain ⟨d, i⟩ := p
          rw [hh] at hok
          simp only [Except.ok.injEq, Prod.mk.injEq] at hok
          obtain ⟨ha, hw⟩ := hok
          have hmem0 : (d, i) ∈ sortedDistances whs o := by
            cases hs : sortedDistances whs o with
            | nil => rw [hs] at hh; exact absurd hh (by simp)
            | cons x t =>
                rw [hs] at hh
                simp only [List.head?_cons, Option.some.injEq] at hh
                rw [hh]
                exact List.mem_cons_self _ _
          have hmem : (d, i) ∈ distList whs o :=
            (sortedDistances_perm whs o).subset hmem0
          have hdi := mem_distList hmem
          have hlen : i < whs.length := hdi.1
          have hd : d = haversine_km o.lat o.lon (wh_at whs i).lat (wh_at whs i).lon := hdi.2
          subst ha
          refine ⟨⟨wh_at whs i, wh_at_mem hlen, ?_, ?_, ?_, ?_, ?_, ?_⟩, ?_⟩
          · simp [mkAssignment]
          · simp [mkAssignment]
          · simp only [mkAssignment]
            rw [hd]
          · simp only [mkAssignment]
            rw [hd]
          · simp [mkAssignment]
          · simp only [mkAssignment]
            rw [hd]
          · intro w' hw'
            rw [← hw] at hw'
            exact ⟨w', hw', rfl, rfl, rfl, rfl, rfl⟩
      | none =>
          rw [hh] at hok
          exact absurd hok (by simp)

lemma assignGo_cost_fields :
    ∀ (orders : List Order) (whs : List Warehouse) (tc bp : ℝ)
      (as : List Assignment) (i : ℕ) (a : Assignment),
      assignGo whs orders tc bp = .ok as → as[i]? = some a →
      ∃ w0, w0 ∈ whs ∧
        a.warehouse_id = w0.id ∧ a.warehouse_name = w0.name ∧
        a.dist_km = round2 (haversine_km a.lat a.lon w0.lat w0.lon) ∧
        a.transport_cost = round2 (haversine_km a.lat a.lon w0.lat w0.lon * tc) ∧
        a.item_cost = round2 (w0.unit_cost * (a.qty : ℝ)) ∧
        a.total_cost = round2 (haversine_km a.lat a.lon w0.lat w0.lon * tc +
          w0.unit_cost * (a.qty : ℝ) + (if a.backorder then bp else 0.0)) := by
  intro orders
  induction orders with
  | nil =>
      intro whs tc bp as i a hgo hget
      simp only [assignGo, Except.ok.injEq] at hgo
      subst hgo
      exact absurd hget (by simp)
  | cons o rest ih =>
      intro whs tc bp as i a hgo hget
      simp only [assignGo] at hgo
      cases hpo : processOrder whs o tc bp with
      | error e => rw [hpo] at hgo; exact absurd hgo (by simp)
      | ok p =>
          obtain ⟨a0, whs'⟩ := p
          simp only [hpo] at hgo
          cases hgo2 : assignGo whs' rest tc bp with
          | error e => simp only [hgo2] at hgo; exact absurd hgo (by simp)
          | ok as' =>
              simp only [hgo2, Except.ok.injEq] at hgo
              subst hgo
              cases i with
              | zero =>
                  simp only [List.getElem?_cons_zero, Option.some.injEq] at hget
                  subst hget
                  obtain ⟨⟨w, hwmem, h1, h2, h3, h4, h5, h6⟩, -⟩ :=
                    processOrder_cost_fields hpo
                  obtain ⟨-, -, hlat, hlon⟩ := processOrder_fields hpo
                  refine ⟨w, hwmem, h1, h2, ?_, ?_, h5, ?_⟩
                  · rw [hlat, hlon]; exact h3
                  · rw [hlat, hlon]; exact h4
                  · rw [hlat, hlon]; exact h6
              | succ j =>
                  simp only [List.getElem?_cons_succ] at hget
                  obtain ⟨w, hwmem, h1, h2, h3, h4, h5, h6⟩ :=
                    ih whs' tc bp as' j a hgo2 hget
                  obtain ⟨-, htrans⟩ := processOrder_cost_fields hpo
                  obtain ⟨w0, hw0mem, e1, e2, e3, e4, e5⟩ := htrans w hwmem
                  refine ⟨w0, hw0mem, ?_, ?_, ?_, ?_, ?_, ?_⟩
                  · rw [e1]; exact h1
                  · rw [e2]; exact h2
                  · rw [e3, e4]; exact h3
                  · rw [e3, e4]; exact h4
                  · rw [e5]; exact h5
                  · rw [e3, e4, e5]; exact h6

/-- C7 amended: with the default configuration, each recorded cost field is
the exact cost formula value rounded to 2 decimals — dist_km = round2(d),
transport_cost = round2(d × 0.5), item_cost = round2(unit_cost × qty),
total_cost = round2(d × 0.5 + unit_cost × qty + (50 if backordered else 0)) —
where d is the unrounded distance to the assigned warehouse.  Because each
field is rounded separately, the recorded total need not equal the sum of the
recorded components. -/
theorem C7_recorded_costs_rounded (whs : List Warehouse) (orders : List Order)
    (as : List Assignment) (i : ℕ) (a : Assignment)
    (hok : assign_orders_to_warehouses whs orders 0.5 50.0 = .ok as)
    (hget : as[i]? = some a) :
    ∃ w0, w0 ∈ whs ∧
      a.warehouse_id = w0.id ∧ a.warehouse_name = w0.name ∧
      a.dist_km = round2 (haversine_km a.lat a.lon w0.lat w0.lon) ∧
      a.transport_cost = round2 (haversine_km a.lat a.lon w0.lat w0.lon * 0.5) ∧
      a.item_cost = round2 (w0.unit_cost * (a.qty : ℝ)) ∧
      a.total_cost = round2 (haversine_km a.lat a.lon w0.lat w0.lon * 0.5 +
        w0.unit_cost * (a.qty : ℝ) + (if a.backorder then (50.0 : ℝ) else 0.0)) := by
  simp only [assign_orders_to_warehouses] at hok
  exact assignGo_cost_fields orders whs 0.5 50.0 as i a hok hget

theorem C7_recorded_costs_rounded_witness :
    ∃ w0, w0 ∈ [c7w] ∧
      c7a.warehouse_id = w0.id ∧ c7a.warehouse_name = w0.name ∧
      c7a.dist_km = round2 (haversine_km c7a.lat c7a.lon w0.lat w0.lon) ∧
      c7a.transport_cost = round2 (haversine_km c7a.lat c7a.lon w0.lat w0.lon * 0.5) ∧
      c7a.item_cost = round2 (w0.unit_cost * (c7a.qty : ℝ)) ∧
      c7a.total_cost = round2 (haversine_km c7a.lat c7a.lon w0.lat w0.lon * 0.5 +
        w0.unit_cost * (c7a.qty : ℝ) + (if c7a.backorder then (50.0 : ℝ) else 0.0)) :=
  C7_recorded_costs_rounded [c7w] [c7o] [c7a] 0 c7a c7_eval (by simp)

lemma deepcopyWh_spec (ws : List WhouseRef) :
    ∀ s : HeapState,
      s.next ≤ (deepcopyWh s ws).2.next ∧
      (∀ a, a < s.next → (deepcopyWh s ws).2.mem a = s.mem a) ∧
      (∀ w', w' ∈ (deepcopyWh s ws).1 → s.next ≤ w'.invAddr) := by
  induction ws with
  | nil => intro s; simp [deepcopyWh]
  | cons w rest ih =>
      intro s
      simp only [deepcopyWh]
      obtain ⟨ih1, ih2, ih3⟩ :=
        ih ⟨fun x => if x = s.next then s.mem w.invAddr else s.mem x, s.next + 1⟩
      refine ⟨?_, ?_, ?_⟩
      · exact le_trans (Nat.le_succ _) ih1
      · intro a ha
        rw [ih2 a (lt_trans ha (Nat.lt_succ_self _))]
        simp [Nat.ne_of_lt ha]
      · intro w' hw'
        rcases List.mem_cons.1 hw' with rfl | hmem
        · exact le_refl _
        · exact le_trans (Nat.le_succ _) (ih3 w' hmem)

lemma whref_at_mem {whs : List WhouseRef} {i : ℕ} (hi : i < whs.length) :
    whref_at whs i ∈ whs := by
  unfold whref_at
  rw [List.getD_eq_getElem _ _ hi]
  exact List.getElem_mem hi

lemma mem_distListH {whs : List WhouseRef} {o : Order} {p : ℝ × ℕ}
    (hp : p ∈ distListH whs o) : p.2 < whs.length := by
  unfold distListH at hp
  obtain ⟨i, hi, rfl⟩ := List.mem_map.1 hp
  rw [List.mem_range] at hi
  exact hi

lemma processOrderH_frame {s : HeapState} {whs : List WhouseRef} {o : Order}
    {tc bp : ℝ} {N : ℕ} (hN : ∀ w ∈ whs, N ≤ w.invAddr) :
    ∀ a, a < N → (processOrderH s whs o tc bp).2.mem a = s.mem a := by
  intro a ha
  simp only [processOrderH]
  cases hf : (sortedDistancesH whs o).find?
      (fun p => decide (o.qty.getD 1 ≤ s.mem (whref_at whs p.2).invAddr)) with
  | some p =>
      obtain ⟨d, i⟩ := p
      have hmem : (d, i) ∈ distListH whs o :=
        (List.mergeSort_perm (distListH whs o) _).subset (List.mem_of_find?_eq_some hf)
      have hi : i < whs.length := mem_distListH hmem
      have haddr : N ≤ (whref_at whs i).invAddr := hN _ (whref_at_mem hi)
      simp only [writeCell]
      have : a ≠ (whref_at whs i).invAddr := Nat.ne_of_lt (lt_of_lt_of_le ha haddr)
      simp [this]
  | none =>
      cases hh : (sortedDistancesH whs o).head? with
      | some p => rfl
      | none => rfl

lemma assignGoH_frame :
    ∀ (orders : List Order) (s : HeapState) (whs : List WhouseRef) (tc bp : ℝ)
      (N : ℕ), (∀ w ∈ whs, N ≤ w.invAddr) →
      ∀ a, a < N → (assignGoH s whs orders tc bp).2.mem a = s.mem a := by
  intro orders
  induction orders with
  | nil => intro s whs tc bp N hN a ha; rfl
  | cons o rest ih =>
      intro s whs tc bp N hN a ha
      simp only [assignGoH]
      cases hpo : processOrderH s whs o tc bp with
      | mk res s1 =>
          have h1 : s1.mem a = s.mem a := by
            have := @processOrderH_frame s whs o tc bp N hN a ha
            rw [hpo] at this
            exact this
          cases res with
          | error e => simpa using h1
          | ok a0 =>
              cases hgo : assignGoH s1 whs rest tc bp with
              | mk res2 s2 =>
                  have h2 : s2.mem a = s1.mem a := by
                    have := ih s1 whs tc bp N hN a ha
                    rw [hgo] at this
                    exact this
                  simp only [hgo]
                  cases res2 <;> simpa using h2.trans h1

/-- C4: running the engine over an explicit heap, the deepcopy on line 19
allocates fresh inventory cells for the working copy, and every inventory
decrement writes only to those fresh cells; hence after the call every
caller-supplied warehouse record's inventory cell holds exactly its original
value. -/
theorem C4_caller_warehouses_unchanged (s0 : HeapState)
    (warehouses : List WhouseRef) (orders : List Order) (tc bp : ℝ)
    (halloc : ∀ w ∈ warehouses, w.invAddr < s0.next) :
    ∀ w ∈ warehouses,
      ((assignH s0 warehouses orders tc bp).2).mem w.invAddr =
        s0.mem w.invAddr := by
  intro w hw
  simp only [assignH]
  obtain ⟨-, hmem, hfresh⟩ := deepcopyWh_spec warehouses s0
  have h1 : ((assignGoH (deepcopyWh s0 warehouses).2 (deepcopyWh s0 warehouses).1
      orders tc bp).2).mem w.invAddr =
      ((deepcopyWh s0 warehouses).2).mem w.invAddr :=
    assignGoH_frame orders (deepcopyWh s0 warehouses).2 (deepcopyWh s0 warehouses).1
      tc bp s0.next hfresh w.invAddr (halloc w hw)
  rw [h1]
  exact hmem w.invAddr (halloc w hw)

theorem C4_caller_warehouses_unchanged_witness :
    ((assignH ⟨fun _ => 7, 1⟩ [⟨1, "W", 0, 0, 2.0, 0⟩] [⟨1, 0, 0, some 1⟩]
      0.5 50.0).2).mem 0 = 7 := by
  have h := C4_caller_warehouses_unchanged ⟨fun _ => 7, 1⟩ [⟨1, "W", 0, 0, 2.0, 0⟩]
    [⟨1, 0, 0, some 1⟩] 0.5 50.0
    (by intro w hw; rw [List.mem_singleton] at hw; subst hw; norm_num)
    ⟨1, "W", 0, 0, 2.0, 0⟩ (by simp)
  simpa using h
